import Mathlib

/-!
Verification development for the Photon image viewer (src/src/main.c).

The C program is shallowly embedded: C strings become `List Nat` of byte
values (a buffer is read up to its first NUL, as `strlen`/`strstr` do),
machine integers become `Int`/`Nat`, the C `float` zoom factor is idealised
as `ℚ` with exact arithmetic, and the external collaborators (filesystem
`stat`, the SDL_image decoder, SDL texture creation) are passed in as
explicit oracle arguments, so that "the decoder is never invoked" is
expressed as independence of the result from the decoder oracle.
-/

/-- The `SecurityResult` enumeration of main.c. -/
inductive SecurityResult where
  | ok
  | invalidInput
  | pathTooLong
  | fileTooLarge
  | accessDenied
  | memoryAllocation
deriving DecidableEq

/-- MAX_PATH_LENGTH from main.c. -/
def MAX_PATH_LENGTH : Nat := 4096

/-- MAX_FILENAME_LENGTH from main.c. -/
def MAX_FILENAME_LENGTH : Nat := 256

/-- MAX_FILE_SIZE from main.c: 100 * 1024 * 1024 bytes. -/
def MAX_FILE_SIZE : Int := 104857600

/-- The logical content of a C string buffer: the bytes before the first NUL.
This is what `strlen`, `strstr`, `strrchr` and the copy routines operate on. -/
def cstr (s : List Nat) : List Nat := s.takeWhile (fun b => b != 0)

/-- Byte-list version of "sub is an initial segment of l" (used to model
the scanning step of `strstr`). -/
def leadsWith : List Nat → List Nat → Bool
  | [], _ => true
  | _ :: _, [] => false
  | a :: as, b :: bs => a == b && leadsWith as bs

/-- Models `strstr(l, sub) != NULL`: some tail of `l` starts with `sub`. -/
def hasSubstring : List Nat → List Nat → Bool
  | [], sub => leadsWith sub []
  | a :: rest, sub => leadsWith sub (a :: rest) || hasSubstring rest sub

/-- Models `validate_filepath` of main.c.  `none` models a NULL `filepath`
pointer; a `some buf` argument is read up to its first NUL byte, exactly as
the C string functions do. -/
def validate_filepath : Option (List Nat) → SecurityResult
  | none => .invalidInput
  | some buf =>
    if (cstr buf).length = 0 ∨ MAX_PATH_LENGTH ≤ (cstr buf).length then .pathTooLong
    else if hasSubstring (cstr buf) [46, 46] then .accessDenied
    else if (cstr buf).any (fun b => b == 0) then .invalidInput
    else .ok

/-- Models `validate_image_size` of main.c. -/
def validate_image_size (file_size : Int) : SecurityResult :=
  if file_size < 0 then .invalidInput
  else if MAX_FILE_SIZE < file_size then .fileTooLarge
  else .ok

/-- C-locale `isprint` on a byte value. -/
def C_isprint (b : Nat) : Bool := decide (32 ≤ b ∧ b ≤ 126)

/-- C-locale `isspace` on a byte value. -/
def C_isspace (b : Nat) : Bool := decide (b = 32 ∨ (9 ≤ b ∧ b ≤ 13))

/-- The reserved characters of `sanitize_filename`: `< > : " | ? *`. -/
def isReserved (b : Nat) : Bool :=
  decide (b = 60 ∨ b = 62 ∨ b = 58 ∨ b = 34 ∨ b = 124 ∨ b = 63 ∨ b = 42)

/-- The per-byte action of the `sanitize_filename` loop body (95 is `_`). -/
def sanitizeByte (b : Nat) : Nat :=
  if isReserved b then 95
  else if !C_isprint b && !C_isspace b then 95
  else b

/-- Models `sanitize_filename` of main.c.  The first component is the returned
`SecurityResult`; the second is the whole buffer after the in-place mutation
(the loop rewrites the bytes before the terminator, position by position, and
then the byte at `max_len - 1` is set to NUL).  The NULL-pointer guard of the
C code concerns only an absent buffer and is outside the byte-list model. -/
def sanitize_filename (buf : List Nat) (max_len : Nat) : SecurityResult × List Nat :=
  if max_len = 0 then (.invalidInput, buf)
  else if max_len ≤ (cstr buf).length then (.pathTooLong, buf)
  else
    ( .ok,
      ((buf.take (min (cstr buf).length (max_len - 1))).map sanitizeByte ++
        buf.drop (min (cstr buf).length (max_len - 1))).set (max_len - 1) 0 )

/-- Models `secure_strncpy(dest, src, dest_size)` for a buffer of physical
size `dest_size`: `strncpy` copies the source string truncated to
`dest_size - 1` bytes and zero-fills the rest, and the last byte is set to
NUL, so the destination buffer contents are fully determined by the source. -/
def strncpyBuf (src : List Nat) (dest_size : Nat) : List Nat :=
  (cstr src).take (dest_size - 1) ++
    List.replicate (dest_size - ((cstr src).take (dest_size - 1)).length) 0

/-- Models `secure_memzero(ptr, size)` on a buffer: the first `size` bytes
are overwritten with zero (writes past the buffer end are outside the model). -/
def secure_memzero (buf : List Nat) (size : Nat) : List Nat :=
  if 0 < size then List.replicate (min size buf.length) 0 ++ buf.drop size
  else buf

/-- Models `safe_free(ptr)` for a non-NULL `ptr`.  The argument is the buffer
`*ptr` points to (`none` models `*ptr == NULL`).  The first component is the
buffer contents at the moment `free` receives them (after the
`secure_memzero(*ptr, 0)` call); the second is the value of `*ptr` after the
call. -/
def safe_free : Option (List Nat) → Option (List Nat) × Option (List Nat)
  | none => (none, none)
  | some buf => (some (secure_memzero buf 0), none)

/-- Models the pointer returned by `strrchr(s, c)` (shifted by one): the
suffix of `s` strictly after the LAST occurrence of `c`, or `none` when `c`
does not occur. -/
def strrchr_suffix : List Nat → Nat → Option (List Nat)
  | [], _ => none
  | b :: rest, c =>
    match strrchr_suffix rest c with
    | some r => some r
    | none => if b = c then some rest else none

/-- Byte list of the string "Unknown". -/
def UNKNOWN_BYTES : List Nat := [85, 110, 107, 110, 111, 119, 110]

/-- Byte list of the string "PNG". -/
def FORMAT_PNG : List Nat := [80, 78, 71]

/-- Byte list of the string "JPEG". -/
def FORMAT_JPEG : List Nat := [74, 80, 69, 71]

/-- Byte list of the string "BMP". -/
def FORMAT_BMP : List Nat := [66, 77, 80]

/-- Byte list of the string "GIF". -/
def FORMAT_GIF : List Nat := [71, 73, 70]

/-- ASCII `tolower` on a byte, as used by `strcasecmp`. -/
def lowerByte (b : Nat) : Nat := if 65 ≤ b ∧ b ≤ 90 then b + 32 else b

/-- Models `strcasecmp(a, b) == 0`: equality up to ASCII case. -/
def strcasecmpEq (a b : List Nat) : Bool := a.map lowerByte == b.map lowerByte

/-- Models `get_format_name` of main.c (the returned static string, as bytes). -/
def get_format_name (filepath : Option (List Nat)) : List Nat :=
  match filepath with
  | none => UNKNOWN_BYTES
  | some p0 =>
    if (cstr p0).length = 0 ∨ MAX_PATH_LENGTH < (cstr p0).length then UNKNOWN_BYTES
    else
      match strrchr_suffix (cstr p0) 46 with
      | none => UNKNOWN_BYTES
      | some ext =>
        if 10 < ext.length then UNKNOWN_BYTES
        else if strcasecmpEq ext [112, 110, 103] then FORMAT_PNG
        else if strcasecmpEq ext [106, 112, 103] ∨ strcasecmpEq ext [106, 112, 101, 103] then FORMAT_JPEG
        else if strcasecmpEq ext [98, 109, 112] then FORMAT_BMP
        else if strcasecmpEq ext [103, 105, 102] then FORMAT_GIF
        else UNKNOWN_BYTES

/-- The basename selection of `extract_metadata` (main.c lines 317-327):
`strrchr(path, '/')`; if that is NULL, `strrchr(path, '\\')`; if that is
also NULL, the whole path.  47 is `/` and 92 is `\`. -/
def metadata_basename (s : List Nat) : List Nat :=
  match strrchr_suffix s 47 with
  | some r => r
  | none =>
    match strrchr_suffix s 92 with
    | some r => r
    | none => s

/-- The suffix of `s` after the last occurrence of `c` (whole list when `c`
is absent), written spec-style via a reversed scan. -/
def afterLast (s : List Nat) (c : Nat) : List Nat :=
  (s.reverse.takeWhile (fun b => b != c)).reverse

/-- Written from the words of claim C6: the basename is the substring after
the last path separator of either OS convention, whichever occurs LAST in
the path; the whole path if neither occurs. -/
def basename_spec_claim (s : List Nat) : List Nat :=
  (s.reverse.takeWhile (fun b => b != 47 && b != 92)).reverse

/-- Written from the amended wording of claim C6: the substring after the
last `/` when the path contains `/`; otherwise after the last `\`-separator
when the path contains one; otherwise the whole path. -/
def basename_spec_amended (s : List Nat) : List Nat :=
  if 47 ∈ s then afterLast s 47
  else if 92 ∈ s then afterLast s 92
  else s

/-- The fields of `struct stat` that main.c reads, as delivered by the
filesystem oracle. -/
structure StatInfo where
  st_size : Int
  st_ctime : Int
  st_mtime : Int
deriving DecidableEq

/-- The fields of the decoded `SDL_Surface` that main.c reads, as delivered
by the decoder oracle. -/
structure SurfaceInfo where
  w : Int
  h : Int
  bpp : Nat
deriving DecidableEq

/-- The `ImageMetadata` struct of main.c.  `filename` holds the full
256-byte buffer contents; `filepath` and `format` hold the logical string
contents of their buffers. -/
structure ImageMetadata where
  filename : List Nat
  filepath : List Nat
  width : Int
  height : Int
  file_size : Int
  bits_per_pixel : Nat
  format : List Nat
  creation_time : Int
  modification_time : Int
deriving DecidableEq

/-- The record built on the success path of `extract_metadata`, given the
stat-derived triple and the decoder oracle answer. -/
def mkMeta (fn fp fmt : List Nat) (size ct mt : Int) (dec : Option SurfaceInfo) :
    ImageMetadata :=
  { filename := fn
    filepath := fp
    format := fmt
    file_size := size
    creation_time := ct
    modification_time := mt
    width := match dec with | some d => d.w | none => 0
    height := match dec with | some d => d.h | none => 0
    bits_per_pixel := match dec with | some d => d.bpp | none => 0 }

/-- Models `extract_metadata` of main.c.  `statRes` is the filesystem oracle
(`none` = `stat` failed) and `decodeRes` the decoder oracle (`none` =
`IMG_Load` failed).  Returning `none` models the C function returning 0; on
success the fully built record is returned (the claims under study concern
the produced record, so the partial writes left behind by a failing call are
not tracked). -/
def extract_metadata (filepath : Option (List Nat)) (statRes : Option StatInfo)
    (decodeRes : Option SurfaceInfo) : Option ImageMetadata :=
  match filepath with
  | none => none
  | some p0 =>
    if validate_filepath (some p0) ≠ .ok then none
    else if (sanitize_filename (strncpyBuf (metadata_basename (cstr p0)) 256) 256).1 ≠ .ok then
      none
    else
      match statRes with
      | some st =>
        if validate_image_size st.st_size ≠ .ok then none
        else some (mkMeta (sanitize_filename (strncpyBuf (metadata_basename (cstr p0)) 256) 256).2
          ((cstr p0).take 511) (get_format_name (some p0))
          st.st_size st.st_ctime st.st_mtime decodeRes)
      | none => some (mkMeta (sanitize_filename (strncpyBuf (metadata_basename (cstr p0)) 256) 256).2
          ((cstr p0).take 511) (get_format_name (some p0)) 0 0 0 decodeRes)

/-- The fields of the `App` struct that the core logic reads and writes.
The SDL window/renderer handles are plumbing and carry no decision logic;
`image_texture` is the held texture handle (`none` = NULL).  The C `float`
zoom is idealised as `ℚ`; the C `int` flags stay `Int`. -/
structure App where
  image_texture : Option Nat
  window_width : Int
  window_height : Int
  image_width : Int
  image_height : Int
  running : Int
  zoom : ℚ
  pan_x : Int
  pan_y : Int
  fit_to_window : Int
  show_info : Int
deriving DecidableEq

/-- Models `load_image_secure` of main.c.  `statRes` is the filesystem
oracle, `decodeRes` the decoder oracle, and `texRes` the
`SDL_CreateTextureFromSurface` oracle (`some t` = a fresh texture handle,
`none` = creation failed).  The pair returned is the `SecurityResult` and
the `App` state after the call (`none` app models a NULL `app` argument). -/
def load_image_secure (app : Option App) (image_path : Option (List Nat))
    (statRes : Option StatInfo) (decodeRes : Option SurfaceInfo)
    (texRes : Option Nat) : SecurityResult × Option App :=
  match app, image_path with
  | none, _ => (.invalidInput, none)
  | some a, none => (.invalidInput, some a)
  | some a, some path =>
    if validate_filepath (some path) ≠ .ok then (validate_filepath (some path), some a)
    else
      match statRes with
      | none => (.accessDenied, some a)
      | some st =>
        if validate_image_size st.st_size ≠ .ok then (validate_image_size st.st_size, some a)
        else
          match decodeRes with
          | none => (.accessDenied, some a)
          | some surf =>
            if surf.w ≤ 0 ∨ surf.h ≤ 0 ∨ 32768 < surf.w ∨ 32768 < surf.h then
              (.invalidInput, some a)
            else
              match texRes with
              | none => (.memoryAllocation, some { a with image_texture := none })
              | some t =>
                (.ok, some { a with image_texture := some t,
                                    image_width := surf.w,
                                    image_height := surf.h })

/-- The discrete input events that `handle_events` of main.c reacts to. -/
inductive Event where
  | quit
  | windowResized (w h : Int)
  | keyEscape
  | keyPlus
  | keyEquals
  | keyMinus
  | keyF
  | key1
  | keyI
  | keyLeft
  | keyRight
  | keyOther
  | wheel (y : Int)
  | otherEvent
deriving DecidableEq

/-- Models one iteration of the `handle_events` switch of main.c for a
single polled event.  The float factors 1.2f and 1.1f are idealised as the
exact rationals 6/5 and 11/10. -/
def handle_event (a : App) : Event → App
  | .quit => { a with running := 0 }
  | .windowResized w h => { a with window_width := w, window_height := h }
  | .keyEscape => { a with running := 0 }
  | .keyPlus => { a with zoom := a.zoom * (6/5), fit_to_window := 0 }
  | .keyEquals => { a with zoom := a.zoom * (6/5), fit_to_window := 0 }
  | .keyMinus => { a with zoom := a.zoom / (6/5), fit_to_window := 0 }
  | .keyF => { a with fit_to_window := 1, zoom := 1, pan_x := 0, pan_y := 0 }
  | .key1 => { a with fit_to_window := 0, zoom := 1, pan_x := 0, pan_y := 0 }
  | .keyI => { a with show_info := if a.show_info = 0 then 1 else 0 }
  | .keyLeft => a
  | .keyRight => a
  | .keyOther => a
  | .wheel y =>
    if 0 < y then { a with zoom := a.zoom * (11/10), fit_to_window := 0 }
    else if y < 0 then { a with zoom := a.zoom / (11/10), fit_to_window := 0 }
    else a
  | .otherEvent => a

/-- An SDL_Rect destination rectangle. -/
structure Rect where
  x : Int
  y : Int
  w : Int
  h : Int
deriving DecidableEq

/-- The C cast `(int)` applied to a real value: truncation toward zero. -/
def ratTrunc (q : ℚ) : Int := if 0 ≤ q then ⌊q⌋ else ⌈q⌉

/-- Models the free zoom/pan branch of `render_image` (main.c lines
462-473, the `fit_to_window == 0` case): the destination rectangle copied
to the renderer, or `none` when the early `return` fires and nothing is
drawn.  C integer division truncates toward zero, hence `Int.tdiv`. -/
def render_image_free_rect (ww wh iw ih : Int) (zoom : ℚ) (px py : Int) :
    Option Rect :=
  if ratTrunc ((iw : ℚ) * zoom) ≤ 0 ∨ ratTrunc ((ih : ℚ) * zoom) ≤ 0 ∨
      65536 < ratTrunc ((iw : ℚ) * zoom) ∨ 65536 < ratTrunc ((ih : ℚ) * zoom) then none
  else some { x := px + (ww - ratTrunc ((iw : ℚ) * zoom)).tdiv 2
              y := py + (wh - ratTrunc ((ih : ℚ) * zoom)).tdiv 2
              w := ratTrunc ((iw : ℚ) * zoom)
              h := ratTrunc ((ih : ℚ) * zoom) }

/-! ### Helper lemmas about C strings (`cstr`) -/

theorem cstr_ne_zero (buf : List Nat) : ∀ b ∈ cstr buf, b ≠ 0 := by
  intro b hb
  have := List.mem_takeWhile_imp hb
  exact bne_iff_ne.mp this

theorem cstr_eq_self_of_ne_zero (l : List Nat) (h : ∀ b ∈ l, b ≠ 0) :
    cstr l = l := by
  induction l with
  | nil => rfl
  | cons b t ih =>
    have hb : b ≠ 0 := h b (List.mem_cons_self b t)
    simp only [cstr, List.takeWhile_cons, bne_iff_ne, ne_eq, hb, not_false_eq_true,
      if_true, List.cons.injEq, true_and]
    exact ih (fun x hx => h x (List.mem_cons_of_mem b hx))

theorem cstr_length_le (buf : List Nat) : (cstr buf).length ≤ buf.length := by
  induction buf with
  | nil => simp [cstr]
  | cons b t ih =>
    simp only [cstr, List.takeWhile_cons] at ih ⊢
    split
    · simpa using ih
    · simp

theorem take_cstr_length (buf : List Nat) : buf.take (cstr buf).length = cstr buf := by
  induction buf with
  | nil => rfl
  | cons b t ih =>
    simp only [cstr, List.takeWhile_cons] at ih ⊢
    split
    · simpa using ih
    · simp

theorem cstr_drop_zero_cons (buf : List Nat) (h : (cstr buf).length < buf.length) :
    ∃ rest, buf.drop (cstr buf).length = 0 :: rest := by
  induction buf with
  | nil => simp at h
  | cons b t ih =>
    by_cases hb : b = 0
    · subst hb
      refine ⟨t, ?_⟩
      simp [cstr, List.takeWhile_cons]
    · have hb' : (b != 0) = true := bne_iff_ne.mpr hb
      simp only [cstr, List.takeWhile_cons, hb', if_true, List.length_cons,
        Nat.add_lt_add_iff_right, List.drop_succ_cons] at h ⊢
      exact ih h

theorem cstr_append_zero_head (C t : List Nat) (h : ∀ b ∈ C, b ≠ 0) :
    cstr (C ++ 0 :: t) = C := by
  induction C with
  | nil => simp [cstr, List.takeWhile_cons]
  | cons c C' ih =>
    have hc : c ≠ 0 := h c (List.mem_cons_self c C')
    have hc' : (c != 0) = true := bne_iff_ne.mpr hc
    simp only [cstr, List.cons_append, List.takeWhile_cons, hc', if_true,
      List.cons.injEq, true_and]
    exact ih (fun x hx => h x (List.mem_cons_of_mem c hx))

theorem getD_append_length (C t : List Nat) :
    (C ++ 0 :: t).getD C.length 1 = 0 := by
  induction C with
  | nil => rfl
  | cons c C' ih => simpa using ih

/-! ### Helper lemmas about `sanitize_filename` -/

theorem sanitizeByte_ne_zero (b : Nat) : sanitizeByte b ≠ 0 := by
  unfold sanitizeByte
  split
  · omega
  · split
    · omega
    · rename_i h1 h2
      intro hb
      subst hb
      simp [C_isprint, C_isspace] at h2

theorem sanitizeByte_shape (b : Nat) :
    (C_isprint (sanitizeByte b) = true ∨ C_isspace (sanitizeByte b) = true ∨
      sanitizeByte b = 95) ∧ isReserved (sanitizeByte b) = false := by
  unfold sanitizeByte
  split
  · exact ⟨Or.inr (Or.inr rfl), by decide⟩
  · split
    · exact ⟨Or.inr (Or.inr rfl), by decide⟩
    · rename_i h1 h2
      constructor
      · by_cases hp : C_isprint b = true
        · exact Or.inl hp
        · by_cases hs : C_isspace b = true
          · exact Or.inr (Or.inl hs)
          · rw [Bool.not_eq_true] at hp hs
            exact absurd (by simp [hp, hs]) h2
      · simp only [Bool.not_eq_true] at h1
        exact h1

theorem sanitize_ok_iff (buf : List Nat) (max_len : Nat) :
    (sanitize_filename buf max_len).1 = .ok ↔
      0 < max_len ∧ (cstr buf).length < max_len := by
  unfold sanitize_filename
  split
  · rename_i h
    subst h
    simp
  · rename_i h
    split
    · rename_i h2
      constructor
      · intro hc
        exact absurd hc (by simp)
      · intro hconj
        omega
    · rename_i h2
      simp only [true_iff]
      omega

theorem set_zero_cons_head (rest : List Nat) (j : Nat) :
    ∃ t, ((0 : Nat) :: rest).set j 0 = 0 :: t := by
  cases j with
  | zero => exact ⟨rest, rfl⟩
  | succ k => exact ⟨rest.set k 0, rfl⟩

theorem sanitize_ok_shape (buf : List Nat) (max_len : Nat)
    (hcap : max_len ≤ buf.length) (h0 : 0 < max_len)
    (hlen : (cstr buf).length < max_len) :
    ∃ t, (sanitize_filename buf max_len).2 = (cstr buf).map sanitizeByte ++ 0 :: t := by
  have hm : min (cstr buf).length (max_len - 1) = (cstr buf).length := by omega
  have hdlen : (cstr buf).length < buf.length := by omega
  obtain ⟨rest, hrest⟩ := cstr_drop_zero_cons buf hdlen
  have hout : (sanitize_filename buf max_len).2 =
      ((cstr buf).map sanitizeByte ++ (0 :: rest)).set (max_len - 1) 0 := by
    unfold sanitize_filename
    rw [if_neg (by omega), if_neg (by omega)]
    rw [hm, take_cstr_length, hrest]
  rw [hout, List.set_append, if_neg (by simp; omega)]
  have hidx : max_len - 1 - ((cstr buf).map sanitizeByte).length =
      max_len - 1 - (cstr buf).length := by simp
  rw [hidx]
  obtain ⟨t, ht⟩ := set_zero_cons_head rest (max_len - 1 - (cstr buf).length)
  exact ⟨t, by rw [ht]⟩

theorem sanitize_ok_cstr (buf : List Nat) (max_len : Nat)
    (hcap : max_len ≤ buf.length) (h0 : 0 < max_len)
    (hlen : (cstr buf).length < max_len) :
    cstr (sanitize_filename buf max_len).2 = (cstr buf).map sanitizeByte := by
  obtain ⟨t, ht⟩ := sanitize_ok_shape buf max_len hcap h0 hlen
  rw [ht]
  apply cstr_append_zero_head
  intro b hb
  obtain ⟨b0, _, rfl⟩ := List.mem_map.mp hb
  exact sanitizeByte_ne_zero b0

/-! ### Helper lemmas about `strncpyBuf` -/

theorem strncpyBuf_zeros (src : List Nat) (cap : Nat) (h0 : 0 < cap) :
    ∃ j, strncpyBuf src cap =
      (cstr src).take (cap - 1) ++ 0 :: List.replicate j 0 := by
  refine ⟨cap - ((cstr src).take (cap - 1)).length - 1, ?_⟩
  unfold strncpyBuf
  have hle : ((cstr src).take (cap - 1)).length ≤ cap - 1 := by
    rw [List.length_take]
    omega
  have h1 : cap - ((cstr src).take (cap - 1)).length =
      (cap - ((cstr src).take (cap - 1)).length - 1) + 1 := by omega
  rw [h1, List.replicate_succ]
  simp

theorem strncpyBuf_length (src : List Nat) (cap : Nat) (h0 : 0 < cap) :
    (strncpyBuf src cap).length = cap := by
  unfold strncpyBuf
  have hle : ((cstr src).take (cap - 1)).length ≤ cap - 1 := by
    rw [List.length_take]
    omega
  simp only [List.length_append, List.length_replicate]
  omega

theorem cstr_strncpyBuf (src : List Nat) (cap : Nat) (h0 : 0 < cap)
    (h : ∀ b ∈ src, b ≠ 0) :
    cstr (strncpyBuf src cap) = src.take (cap - 1) := by
  obtain ⟨j, hj⟩ := strncpyBuf_zeros src cap h0
  rw [hj, cstr_eq_self_of_ne_zero src h]
  apply cstr_append_zero_head
  intro b hb
  exact h b (List.take_subset _ _ hb)

/-! ### Helper lemmas about `strrchr_suffix` and the basename functions -/

theorem strrchr_suffix_none_iff (s : List Nat) (c : Nat) :
    strrchr_suffix s c = none ↔ c ∉ s := by
  induction s with
  | nil => simp [strrchr_suffix]
  | cons b rest ih =>
    cases hrec : strrchr_suffix rest c with
    | some r =>
      have hc : c ∈ rest := by
        by_contra hcn
        rw [ih.mpr hcn] at hrec
        cases hrec
      simp [strrchr_suffix, hrec, List.mem_cons, hc]
    | none =>
      have hc : c ∉ rest := ih.mp hrec
      by_cases hb : b = c
      · subst hb
        simp [strrchr_suffix, hrec]
      · simp only [strrchr_suffix, hrec, if_neg hb, List.mem_cons, true_iff]
        intro h
        rcases h with h | h
        · exact hb h.symm
        · exact hc h

theorem strrchr_suffix_sub_mem (s : List Nat) (c : Nat) (r : List Nat)
    (h : strrchr_suffix s c = some r) : ∀ b ∈ r, b ∈ s := by
  induction s generalizing r with
  | nil => simp [strrchr_suffix] at h
  | cons b0 rest ih =>
    cases hrec : strrchr_suffix rest c with
    | some r' =>
      simp only [strrchr_suffix, hrec, Option.some.injEq] at h
      subst h
      intro b hb
      exact List.mem_cons_of_mem b0 (ih r' hrec b hb)
    | none =>
      simp only [strrchr_suffix, hrec] at h
      by_cases hb0 : b0 = c
      · rw [if_pos hb0, Option.some.injEq] at h
        subst h
        intro b hb
        exact List.mem_cons_of_mem b0 hb
      · rw [if_neg hb0] at h
        exact absurd h (by simp)

theorem takeWhile_append_stop (p : Nat → Bool) (A B : List Nat)
    (h : ∃ x ∈ A, p x = false) :
    (A ++ B).takeWhile p = A.takeWhile p := by
  induction A with
  | nil => simp at h
  | cons a A' ih =>
    by_cases ha : p a = true
    · simp only [List.cons_append, List.takeWhile_cons, ha, if_true, List.cons.injEq, true_and]
      apply ih
      obtain ⟨x, hx, hpx⟩ := h
      rcases List.mem_cons.mp hx with rfl | hx'
      · exact absurd ha (by simp [hpx])
      · exact ⟨x, hx', hpx⟩
    · rw [Bool.not_eq_true] at ha
      simp [List.takeWhile_cons, ha]

theorem takeWhile_append_all (p : Nat → Bool) (A B : List Nat) (b : Nat)
    (hA : ∀ x ∈ A, p x = true) (hb : p b = false) :
    (A ++ b :: B).takeWhile p = A := by
  induction A with
  | nil => simp [List.takeWhile_cons, hb]
  | cons a A' ih =>
    have ha : p a = true := hA a (List.mem_cons_self a A')
    simp only [List.cons_append, List.takeWhile_cons, ha, if_true, List.cons.injEq, true_and]
    exact ih (fun x hx => hA x (List.mem_cons_of_mem a hx))

theorem strrchr_suffix_eq_afterLast (s : List Nat) (c : Nat) (h : c ∈ s) :
    strrchr_suffix s c = some (afterLast s c) := by
  induction s with
  | nil => simp at h
  | cons b rest ih =>
    by_cases hrest : c ∈ rest
    · have hrec := ih hrest
      simp only [strrchr_suffix, hrec, Option.some.injEq]
      unfold afterLast
      rw [List.reverse_cons, takeWhile_append_stop _ _ [b]
        ⟨c, List.mem_reverse.mpr hrest, by simp⟩]
    · have hrec : strrchr_suffix rest c = none := (strrchr_suffix_none_iff rest c).mpr hrest
      have hb : b = c := by
        rcases List.mem_cons.mp h with h' | h'
        · exact h'.symm
        · exact absurd h' hrest
      subst hb
      simp only [strrchr_suffix, hrec, if_pos rfl, Option.some.injEq]
      unfold afterLast
      rw [List.reverse_cons, takeWhile_append_all (fun x => x != b) rest.reverse [] b
        (fun x hx => bne_iff_ne.mpr
          (fun hxc => hrest (by rw [hxc] at hx; exact List.mem_reverse.mp hx)))
        (by simp)]
      simp

theorem metadata_basename_eq_amended (s : List Nat) :
    metadata_basename s = basename_spec_amended s := by
  unfold metadata_basename basename_spec_amended
  by_cases h47 : 47 ∈ s
  · rw [strrchr_suffix_eq_afterLast s 47 h47, if_pos h47]
  · rw [(strrchr_suffix_none_iff s 47).mpr h47, if_neg h47]
    by_cases h92 : 92 ∈ s
    · rw [strrchr_suffix_eq_afterLast s 92 h92, if_pos h92]
    · rw [(strrchr_suffix_none_iff s 92).mpr h92, if_neg h92]

theorem metadata_basename_mem (s : List Nat) : ∀ b ∈ metadata_basename s, b ∈ s := by
  unfold metadata_basename
  cases h47 : strrchr_suffix s 47 with
  | some r => exact strrchr_suffix_sub_mem s 47 r h47
  | none =>
    cases h92 : strrchr_suffix s 92 with
    | some r => exact strrchr_suffix_sub_mem s 92 r h92
    | none => exact fun b hb => hb

/-! ### Helper lemmas about `ratTrunc` (the C `(int)` cast) -/

theorem ratTrunc_nonpos_iff (q : ℚ) : ratTrunc q ≤ 0 ↔ q < 1 := by
  rw [ratTrunc]
  by_cases h : 0 ≤ q
  · rw [if_pos h]
    constructor
    · intro hf
      by_contra hq
      push_neg at hq
      have h1 : (1 : ℤ) ≤ ⌊q⌋ := Int.le_floor.mpr (by exact_mod_cast hq)
      omega
    · intro hq
      have h1 : ⌊q⌋ < (1 : ℤ) := Int.floor_lt.mpr (by exact_mod_cast hq)
      omega
  · rw [if_neg h]
    push_neg at h
    constructor
    · intro _
      linarith
    · intro _
      exact Int.ceil_le.mpr (by exact_mod_cast h.le)

theorem ratTrunc_gt_65536_iff (q : ℚ) : 65536 < ratTrunc q ↔ 65537 ≤ q := by
  rw [ratTrunc]
  by_cases h : 0 ≤ q
  · rw [if_pos h]
    constructor
    · intro hf
      have h1 : (65537 : ℤ) ≤ ⌊q⌋ := by omega
      have h2 := Int.le_floor.mp h1
      exact_mod_cast h2
    · intro hq
      have h1 : (65537 : ℤ) ≤ ⌊q⌋ := Int.le_floor.mpr (by exact_mod_cast hq)
      omega
  · rw [if_neg h]
    push_neg at h
    constructor
    · intro hf
      have h1 : ⌈q⌉ ≤ 0 := Int.ceil_le.mpr (by exact_mod_cast h.le)
      omega
    · intro hq
      linarith

/-! ### Helper lemmas about `hasSubstring` and `validate_filepath` -/

theorem hasSubstring_of_leadsWith (l sub : List Nat) (h : leadsWith sub l = true) :
    hasSubstring l sub = true := by
  cases l with
  | nil => simpa [hasSubstring] using h
  | cons a rest => simp [hasSubstring, h]

theorem hasSubstring_ne_nil (buf : List Nat)
    (h : hasSubstring buf [46, 46] = true) : buf ≠ [] := by
  intro hnil
  subst hnil
  simp [hasSubstring, leadsWith] at h

/-- The core of the corrected directory-traversal property: a path whose
logical content contains `..` AND is short enough to get past the
length check is rejected with `AccessDenied`. -/
theorem validate_dotdot_helper (buf : List Nat)
    (hsub : hasSubstring (cstr buf) [46, 46] = true)
    (hlen : (cstr buf).length < MAX_PATH_LENGTH) :
    validate_filepath (some buf) = .accessDenied := by
  have hne : (cstr buf).length ≠ 0 := by
    intro h0
    exact hasSubstring_ne_nil (cstr buf) hsub (List.length_eq_zero.mp h0)
  have hc : ¬((cstr buf).length = 0 ∨ MAX_PATH_LENGTH ≤ (cstr buf).length) := by
    rw [not_or]
    exact ⟨hne, Nat.not_le.mpr hlen⟩
  simp only [validate_filepath]
  rw [if_neg hc, if_pos hsub]

theorem replicate_4096_unfold :
    List.replicate 4096 46 = 46 :: 46 :: List.replicate 4094 (46 : Nat) := by
  rw [show (4096 : Nat) = 4095 + 1 from rfl, List.replicate_succ,
    show (4095 : Nat) = 4094 + 1 from rfl, List.replicate_succ]

theorem cstr_replicate_4096 :
    cstr (List.replicate 4096 46) = List.replicate 4096 (46 : Nat) :=
  cstr_eq_self_of_ne_zero _ (fun b hb => by
    have := List.eq_of_mem_replicate hb
    omega)

theorem hasSubstring_replicate_4096 :
    hasSubstring (List.replicate 4096 46) [46, 46] = true := by
  rw [replicate_4096_unfold]
  apply hasSubstring_of_leadsWith
  simp [leadsWith]

/-! ### Helper lemmas about `extract_metadata` -/

theorem sanitize_extract_ok (s : List Nat) (hs : ∀ b ∈ s, b ≠ 0) :
    (sanitize_filename (strncpyBuf s 256) 256).1 = .ok := by
  apply (sanitize_ok_iff _ _).mpr
  refine ⟨by norm_num, ?_⟩
  rw [cstr_strncpyBuf s 256 (by norm_num) hs]
  rw [List.length_take]
  omega

theorem extract_ne_none (p : List Nat) (statRes : Option StatInfo)
    (decodeRes : Option SurfaceInfo)
    (hv : validate_filepath (some p) = .ok)
    (hst : ∀ st, statRes = some st → validate_image_size st.st_size = .ok) :
    extract_metadata (some p) statRes decodeRes =
      some (mkMeta (sanitize_filename (strncpyBuf (metadata_basename (cstr p)) 256) 256).2
        ((cstr p).take 511) (get_format_name (some p))
        (match statRes with | some st => st.st_size | none => 0)
        (match statRes with | some st => st.st_ctime | none => 0)
        (match statRes with | some st => st.st_mtime | none => 0) decodeRes) := by
  have hsan : (sanitize_filename (strncpyBuf (metadata_basename (cstr p)) 256) 256).1 = .ok :=
    sanitize_extract_ok _ (fun b hb => cstr_ne_zero p b (metadata_basename_mem (cstr p) b hb))
  simp only [extract_metadata]
  rw [if_neg (by simp [hv]), if_neg (by simp [hsan])]
  cases statRes with
  | none => rfl
  | some st =>
    dsimp only
    rw [if_neg (by simp [hst st rfl])]

theorem validate_filepath_ne_memAlloc (x : Option (List Nat)) :
    validate_filepath x ≠ .memoryAllocation := by
  cases x with
  | none => simp [validate_filepath]
  | some buf =>
    simp only [validate_filepath]
    split_ifs <;> simp

theorem validate_image_size_ne_memAlloc (n : Int) :
    validate_image_size n ≠ .memoryAllocation := by
  unfold validate_image_size
  split_ifs <;> simp

/-- C3 (counterexample): a path of 4096 dots contains the literal substring
`..`, yet `validate_filepath` returns `PathTooLong`, not `AccessDenied`,
because the length check runs before the `strstr` check. -/
theorem c3_counterexample :
    hasSubstring (List.replicate 4096 46) [46, 46] = true
    ∧ validate_filepath (some (List.replicate 4096 46)) = .pathTooLong
    ∧ SecurityResult.pathTooLong ≠ SecurityResult.accessDenied := by
  refine ⟨hasSubstring_replicate_4096, ?_, by decide⟩
  simp only [validate_filepath, cstr_replicate_4096, List.length_replicate]
  rw [if_pos (Or.inr (by norm_num [MAX_PATH_LENGTH]))]

/-- C3 (amended): for every path whose logical content contains the literal
substring `..` AND whose length is below `MAX_PATH_LENGTH` (so that the
earlier length check does not fire first), `validate_filepath` returns
`AccessDenied`. -/
theorem c3_dotdot_access_denied (buf : List Nat)
    (hsub : hasSubstring (cstr buf) [46, 46] = true)
    (hlen : (cstr buf).length < MAX_PATH_LENGTH) :
    validate_filepath (some buf) = .accessDenied :=
  validate_dotdot_helper buf hsub hlen

/-- C3 (witness): the amended theorem applied to the concrete path `../e`. -/
theorem c3_dotdot_access_denied_witness :
    validate_filepath (some [46, 46, 47, 101]) = .accessDenied :=
  c3_dotdot_access_denied [46, 46, 47, 101] (by decide) (by decide)

/-- C4 (counterexample): the empty path yields `PathTooLong`, not the
`InvalidInput` the claim requires. -/
theorem c4_counterexample :
    validate_filepath (some []) = .pathTooLong
    ∧ SecurityResult.pathTooLong ≠ SecurityResult.invalidInput := by
  exact ⟨by decide, by decide⟩

/-- C4 (amended): `validate_filepath` returns `InvalidInput` exactly for the
absent (NULL) path; an empty path yields `PathTooLong`; and since the length
is measured up to the first NUL byte, the dedicated embedded-NUL check can
never fire — no present path ever yields `InvalidInput` (the result is
always `PathTooLong`, `AccessDenied` or `Ok`). -/
theorem c4_validate_invalid_input_amended :
    validate_filepath none = .invalidInput
    ∧ validate_filepath (some []) = .pathTooLong
    ∧ ∀ buf : List Nat,
        validate_filepath (some buf) = .pathTooLong ∨
        validate_filepath (some buf) = .accessDenied ∨
        validate_filepath (some buf) = .ok := by
  refine ⟨rfl, by decide, ?_⟩
  intro buf
  simp only [validate_filepath]
  split_ifs with h1 h2 h3
  · exact Or.inl rfl
  · exact Or.inr (Or.inl rfl)
  · exfalso
    obtain ⟨x, hx, hx0⟩ := List.any_eq_true.mp h3
    exact cstr_ne_zero buf x hx (by simpa using hx0)
  · exact Or.inr (Or.inr rfl)

/-- C5 (code bug): `safe_free` calls `secure_memzero(*ptr, 0)` with size 0,
so NO byte of the buffer is cleared before `free` — a one-byte buffer
holding 7 reaches `free` still holding 7.  By contrast, `secure_memzero`
with the actual size 1 would have produced the zeroed buffer, which is what
the function's own naming and the spec's `secure_free wipes before release`
require. -/
theorem c5_safe_free_releases_unwiped :
    safe_free (some [7]) = (some [7], none)
    ∧ secure_memzero [7] 1 = [0] := by
  exact ⟨rfl, rfl⟩

/-- C9 (confirmed): the fit-key (`f`) transition sets
`fit_to_window = 1, zoom = 1, pan = (0,0)` leaving all other fields intact,
and applying it twice yields exactly the state after applying it once. -/
theorem c9_fit_key_idempotent (a : App) :
    handle_event a .keyF =
      { a with fit_to_window := 1, zoom := 1, pan_x := 0, pan_y := 0 }
    ∧ handle_event (handle_event a .keyF) .keyF = handle_event a .keyF := by
  exact ⟨rfl, rfl⟩

/-- C7 (confirmed): whenever `sanitize_filename` succeeds on a buffer of
physical size at least `max_len`, every byte of the result before its NUL
terminator is printable ASCII, whitespace, or the placeholder `_` (95), no
reserved character `< > : " | ? *` remains, and the buffer is NUL-terminated
within `max_len` bytes. -/
theorem c7_sanitize_postcondition (buf : List Nat) (max_len : Nat)
    (hcap : max_len ≤ buf.length)
    (hok : (sanitize_filename buf max_len).1 = .ok) :
    (∀ b ∈ cstr (sanitize_filename buf max_len).2,
      (C_isprint b = true ∨ C_isspace b = true ∨ b = 95) ∧ isReserved b = false)
    ∧ ∃ i, i < max_len ∧ (sanitize_filename buf max_len).2.getD i 1 = 0 := by
  obtain ⟨h0, hlen⟩ := (sanitize_ok_iff buf max_len).mp hok
  obtain ⟨t, ht⟩ := sanitize_ok_shape buf max_len hcap h0 hlen
  constructor
  · intro b hb
    rw [ht, cstr_append_zero_head _ _ (by
      intro x hx
      obtain ⟨x0, _, rfl⟩ := List.mem_map.mp hx
      exact sanitizeByte_ne_zero x0)] at hb
    obtain ⟨b0, _, rfl⟩ := List.mem_map.mp hb
    exact sanitizeByte_shape b0
  · refine ⟨(cstr buf).length, hlen, ?_⟩
    rw [ht]
    have hg := getD_append_length ((cstr buf).map sanitizeByte) t
    simpa [List.length_map] using hg

/-- C7 (witness): the theorem applied to the 4-byte buffer `< a 0xC8 NUL`
with bound 4; the result is `_ a _ NUL`. -/
theorem c7_sanitize_postcondition_witness :
    (∀ b ∈ cstr (sanitize_filename [60, 97, 200, 0] 4).2,
      (C_isprint b = true ∨ C_isspace b = true ∨ b = 95) ∧ isReserved b = false)
    ∧ ∃ i, i < 4 ∧ (sanitize_filename [60, 97, 200, 0] 4).2.getD i 1 = 0 :=
  c7_sanitize_postcondition [60, 97, 200, 0] 4 (by decide) (by decide)

/-- C10 (confirmed): whenever `load_image_secure` fails for a reason other
than `MemoryAllocation` (path validation, stat, SizeGuard, decode, or the
dimension check), the `App` state is returned unchanged; when it fails with
`MemoryAllocation` (texture creation), the previously held texture has
already been destroyed, so `image_texture` is `NULL` while `image_width`
and `image_height` still hold their pre-call values. -/
theorem c10_load_failure_state (a : App) (p : List Nat) (st : Option StatInfo)
    (dec : Option SurfaceInfo) (tex : Option Nat) :
    ((load_image_secure (some a) (some p) st dec tex).1 ≠ .ok →
      (load_image_secure (some a) (some p) st dec tex).1 ≠ .memoryAllocation →
      (load_image_secure (some a) (some p) st dec tex).2 = some a)
    ∧ ((load_image_secure (some a) (some p) st dec tex).1 = .memoryAllocation →
      (load_image_secure (some a) (some p) st dec tex).2 =
        some { a with image_texture := none }) := by
  simp only [load_image_secure]
  split_ifs with h1
  · dsimp only
    exact ⟨fun _ _ => rfl, fun hm => absurd hm (validate_filepath_ne_memAlloc _)⟩
  · cases st with
    | none =>
      dsimp only
      exact ⟨fun _ _ => rfl, fun hm => absurd hm (by decide)⟩
    | some s0 =>
      dsimp only
      split_ifs with h2
      · dsimp only
        exact ⟨fun _ _ => rfl, fun hm => absurd hm (validate_image_size_ne_memAlloc _)⟩
      · cases dec with
        | none =>
          dsimp only
          exact ⟨fun _ _ => rfl, fun hm => absurd hm (by decide)⟩
        | some surf =>
          dsimp only
          split_ifs with h3
          · dsimp only
            exact ⟨fun _ _ => rfl, fun hm => absurd hm (by decide)⟩
          · cases tex with
            | none =>
              dsimp only
              exact ⟨fun _ hne => absurd rfl hne, fun _ => rfl⟩
            | some t =>
              dsimp only
              exact ⟨fun hne _ => absurd rfl hne, fun hm => absurd hm (by decide)⟩

/-- C10 (witness): the theorem applied where texture creation fails on a
valid 10x10 decode — the held texture is gone, dimensions untouched. -/
theorem c10_load_failure_state_witness :
    (load_image_secure (some ⟨some 5, 800, 600, 10, 10, 1, 1, 0, 0, 1, 0⟩)
        (some [97]) (some ⟨5, 0, 0⟩) (some ⟨10, 10, 32⟩) none).2 =
      some { (⟨some 5, 800, 600, 10, 10, 1, 1, 0, 0, 1, 0⟩ : App) with
        image_texture := none } :=
  (c10_load_failure_state ⟨some 5, 800, 600, 10, 10, 1, 1, 0, 0, 1, 0⟩
    [97] (some ⟨5, 0, 0⟩) (some ⟨10, 10, 32⟩) none).2 (by decide)

/-- C8 (counterexample): a 4096-dot path both contains `..` and (per the
stat oracle) has size 150 MiB, so the claim requires `AccessDenied`
(second half) and `FileTooLarge` (first half); the code returns
`PathTooLong` from the length check, which runs before the `..` check. -/
theorem c8_counterexample :
    hasSubstring (List.replicate 4096 46) [46, 46] = true
    ∧ (load_image_secure (some ⟨none, 800, 600, 0, 0, 1, 1, 0, 0, 1, 0⟩)
        (some (List.replicate 4096 46)) (some ⟨157286400, 0, 0⟩) none none).1 =
          .pathTooLong
    ∧ SecurityResult.pathTooLong ≠ SecurityResult.fileTooLarge
    ∧ SecurityResult.pathTooLong ≠ SecurityResult.accessDenied := by
  have hval : validate_filepath (some (List.replicate 4096 46)) = .pathTooLong := by
    simp only [validate_filepath, cstr_replicate_4096, List.length_replicate]
    rw [if_pos (Or.inr (by norm_num [MAX_PATH_LENGTH]))]
  refine ⟨hasSubstring_replicate_4096, ?_, by decide, by decide⟩
  simp only [load_image_secure]
  rw [if_pos (by rw [hval]; decide), hval]

/-- C8 (amended): with the steps in their actual order — for every path that
passes validation and whose stat succeeds with size above `MAX_FILE_SIZE`,
`load_image_secure` returns `FileTooLarge`, and the result is the same for
every decoder and texture oracle (the decoder is never consulted); for every
path whose logical content contains `..` and is shorter than
`MAX_PATH_LENGTH`, it returns `AccessDenied`, identically for every stat,
decoder and texture oracle (no stat call is consulted). -/
theorem c8_load_short_circuit (a : App) (p : List Nat) (st : StatInfo)
    (dec : Option SurfaceInfo) (tex : Option Nat)
    (st2 : Option StatInfo) (dec2 : Option SurfaceInfo) (tex2 : Option Nat) :
    (validate_filepath (some p) = .ok → MAX_FILE_SIZE < st.st_size →
      load_image_secure (some a) (some p) (some st) dec tex = (.fileTooLarge, some a))
    ∧ (hasSubstring (cstr p) [46, 46] = true → (cstr p).length < MAX_PATH_LENGTH →
      load_image_secure (some a) (some p) st2 dec2 tex2 = (.accessDenied, some a)) := by
  constructor
  · intro hv hsize
    have hsize' : (104857600 : Int) < st.st_size := hsize
    have hsz : validate_image_size st.st_size = .fileTooLarge := by
      unfold validate_image_size
      rw [if_neg (by omega), if_pos hsize]
    simp only [load_image_secure]
    rw [if_neg (by simp [hv])]
    rw [if_pos (by simp [hsz]), hsz]
  · intro hsub hlen
    have hv := validate_dotdot_helper p hsub hlen
    simp only [load_image_secure]
    rw [if_pos (by simp [hv]), hv]

/-- C8 (witness): the amended theorem applied at the path `a` with a
150 MiB stat answer (first half) and at the path `../e` (second half). -/
theorem c8_load_short_circuit_witness :
    load_image_secure (some ⟨none, 800, 600, 0, 0, 1, 1, 0, 0, 1, 0⟩) (some [97])
        (some ⟨157286400, 0, 0⟩) (some ⟨10, 10, 32⟩) (some 1) =
      (.fileTooLarge, some ⟨none, 800, 600, 0, 0, 1, 1, 0, 0, 1, 0⟩)
    ∧ load_image_secure (some ⟨none, 800, 600, 0, 0, 1, 1, 0, 0, 1, 0⟩)
        (some [46, 46, 47, 101]) none none none =
      (.accessDenied, some ⟨none, 800, 600, 0, 0, 1, 1, 0, 0, 1, 0⟩) :=
  ⟨(c8_load_short_circuit ⟨none, 800, 600, 0, 0, 1, 1, 0, 0, 1, 0⟩ [97]
      ⟨157286400, 0, 0⟩ (some ⟨10, 10, 32⟩) (some 1) none none none).1
      (by decide) (by decide),
   (c8_load_short_circuit ⟨none, 800, 600, 0, 0, 1, 1, 0, 0, 1, 0⟩ [46, 46, 47, 101]
      ⟨0, 0, 0⟩ none none none none none).2 (by decide) (by decide)⟩

/-- C2 (counterexample): the path `a` passes validation and its one-byte
basename sanitizes fine, yet `extract_metadata` FAILS when stat succeeds
with a 150 MiB size, because the size check after a successful stat is a
third fatal exit the claim does not allow. -/
theorem c2_counterexample :
    validate_filepath (some [97]) = .ok
    ∧ extract_metadata (some [97]) (some ⟨157286400, 5, 6⟩) none = none := by
  exact ⟨by decide, by decide⟩

/-- C2 (amended): `extract_metadata` fails exactly when PathValidator
rejects the path OR `stat` succeeds and SizeGuard rejects the reported size
(the sanitizer can never reject the basename, which is truncated to 255
bytes before sanitization); and a FAILED stat is indeed non-fatal, with
`file_size`, `creation_time` and `modification_time` defaulted to 0. -/
theorem c2_extract_metadata_amended (p : List Nat) (st : Option StatInfo)
    (dec : Option SurfaceInfo) :
    (extract_metadata (some p) st dec = none ↔
      validate_filepath (some p) ≠ .ok ∨
        ∃ s, st = some s ∧ validate_image_size s.st_size ≠ .ok)
    ∧ (validate_filepath (some p) = .ok →
        ∃ m, extract_metadata (some p) none dec = some m ∧
          m.file_size = 0 ∧ m.creation_time = 0 ∧ m.modification_time = 0) := by
  have hsan : (sanitize_filename (strncpyBuf (metadata_basename (cstr p)) 256) 256).1 = .ok :=
    sanitize_extract_ok _ (fun b hb => cstr_ne_zero p b (metadata_basename_mem (cstr p) b hb))
  constructor
  · by_cases hv : validate_filepath (some p) = .ok
    · cases st with
      | none =>
        rw [extract_ne_none p none dec hv (fun st h => by cases h)]
        simp [hv]
      | some s0 =>
        by_cases hs : validate_image_size s0.st_size = .ok
        · rw [extract_ne_none p (some s0) dec hv (fun st h => by cases h; exact hs)]
          simp only [hv, ne_eq, not_true_eq_false, false_or]
          constructor
          · intro h
            exact absurd h (by simp)
          · intro ⟨s, hss, hbad⟩
            cases hss
            exact absurd hs hbad
        · have hnone : extract_metadata (some p) (some s0) dec = none := by
            simp only [extract_metadata]
            rw [if_neg (by simp [hv]), if_neg (by simp [hsan])]
            rw [if_pos (by simp [hs])]
          rw [hnone]
          simp only [hv, ne_eq, not_true_eq_false, false_or, true_iff]
          exact ⟨s0, rfl, hs⟩
    · have hnone : extract_metadata (some p) st dec = none := by
        simp only [extract_metadata]
        rw [if_pos (by simp [hv])]
      rw [hnone]
      simp [hv]
  · intro hv
    exact ⟨_, extract_ne_none p none dec hv (fun st h => by cases h), rfl, rfl, rfl⟩

/-- C2 (witness): the amended theorem applied to the valid path `a` with a
failing stat — extraction succeeds with zeroed size and timestamps. -/
theorem c2_extract_metadata_amended_witness :
    ∃ m, extract_metadata (some [97]) none none = some m ∧
      m.file_size = 0 ∧ m.creation_time = 0 ∧ m.modification_time = 0 :=
  (c2_extract_metadata_amended [97] none none).2 (by decide)

/-- C6 (counterexample): the path `a/b\c` contains a `/` at index 1 and a
later `\` at index 3, so the claim ("whichever separator occurs last")
demands basename `c`; the code takes the suffix after the last `/`
(`strrchr('/')` is tried first and wins whenever a `/` exists anywhere),
recording `b\c`. -/
theorem c6_counterexample :
    (extract_metadata (some [97, 47, 98, 92, 99]) none none).map
        (fun m => cstr m.filename) = some [98, 92, 99]
    ∧ basename_spec_claim [97, 47, 98, 92, 99] = [99]
    ∧ ([98, 92, 99] : List Nat) ≠ [99] := by
  exact ⟨by decide, by decide, by decide⟩

/-- C6 (amended): for every path, whenever metadata extraction succeeds the
recorded filename (read up to its NUL) is the basename taken after the last
`/` when the path contains a `/`, otherwise after the last `\` when it
contains one, otherwise the whole path — truncated to 255 bytes and passed
through the per-byte sanitizer. -/
theorem c6_basename_amended (p : List Nat) (st : Option StatInfo)
    (dec : Option SurfaceInfo) :
    (extract_metadata (some p) st dec).map (fun m => cstr m.filename) =
      (extract_metadata (some p) st dec).map
        (fun _ => ((basename_spec_amended (cstr p)).take 255).map sanitizeByte) := by
  have hnz : ∀ b ∈ metadata_basename (cstr p), b ≠ 0 :=
    fun b hb => cstr_ne_zero p b (metadata_basename_mem (cstr p) b hb)
  have hsan : (sanitize_filename (strncpyBuf (metadata_basename (cstr p)) 256) 256).1 = .ok :=
    sanitize_extract_ok _ hnz
  cases hres : extract_metadata (some p) st dec with
  | none => rfl
  | some m =>
    have hfn : m.filename =
        (sanitize_filename (strncpyBuf (metadata_basename (cstr p)) 256) 256).2 := by
      simp only [extract_metadata] at hres
      by_cases hv : validate_filepath (some p) = .ok
      · rw [if_neg (by simp [hv]), if_neg (by simp [hsan])] at hres
        cases st with
        | none =>
          cases hres
          rfl
        | some s0 =>
          dsimp only at hres
          by_cases hs : validate_image_size s0.st_size = .ok
          · rw [if_neg (by simp [hs])] at hres
            cases hres
            rfl
          · rw [if_pos (by simp [hs])] at hres
            cases hres
      · rw [if_pos (by simp [hv])] at hres
        cases hres
    have hcb : cstr (strncpyBuf (metadata_basename (cstr p)) 256) =
        (metadata_basename (cstr p)).take 255 := by
      have := cstr_strncpyBuf (metadata_basename (cstr p)) 256 (by norm_num) hnz
      simpa using this
    have hcap : (256 : Nat) ≤ (strncpyBuf (metadata_basename (cstr p)) 256).length :=
      le_of_eq (strncpyBuf_length _ 256 (by norm_num)).symm
    have hlen2 : (cstr (strncpyBuf (metadata_basename (cstr p)) 256)).length < 256 := by
      rw [hcb, List.length_take]
      omega
    dsimp only [Option.map]
    congr 1
    rw [hfn, sanitize_ok_cstr _ 256 hcap (by norm_num) hlen2, hcb,
      metadata_basename_eq_amended, List.map_take]

/-- C1 (counterexample): with a 3x3 image at zoom 1/2 the products are 3/2,
inside the claim's renderable band, so the claim demands width
`round(3/2) = 2`; the code's `(int)` cast truncates and draws width 1.
And with a 1x1 image at zoom 1/2 the products are 1/2, which is neither
`<= 0` nor `> 65536`, so the claim demands a rectangle; the code truncates
to 0 and draws nothing. -/
theorem c1_counterexample :
    (render_image_free_rect 800 600 3 3 (1/2) 0 0).map Rect.w = some 1
    ∧ (1 : Int) ≠ round ((3 : ℚ) * (1/2))
    ∧ render_image_free_rect 800 600 1 1 (1/2) 0 0 = none
    ∧ ¬ ((1 : ℚ) * (1/2) ≤ 0 ∨ 65536 < (1 : ℚ) * (1/2)) := by
  have h3 : ratTrunc (((3 : Int) : ℚ) * (1/2)) = 1 := by
    rw [ratTrunc, if_pos (by norm_num)]
    norm_num [Int.floor_eq_iff]
  have h1 : ratTrunc (((1 : Int) : ℚ) * (1/2)) = 0 := by
    rw [ratTrunc, if_pos (by norm_num)]
    norm_num [Int.floor_eq_iff]
  refine ⟨?_, ?_, ?_, by norm_num⟩
  · unfold render_image_free_rect
    rw [h3]
    rw [if_neg (by decide)]
    decide
  · norm_num [round_eq, Int.floor_eq_iff]
  · unfold render_image_free_rect
    rw [h1]
    rw [if_pos (Or.inl le_rfl)]

/-- C1 (amended): in free zoom/pan mode the viewport computation returns no
renderable rectangle iff `iw*zoom < 1` or `iw*zoom >= 65537` or the same
for the height product (equivalently: iff truncation toward zero of a
product is `<= 0` or `> 65536`); otherwise the returned width and height
are the C `(int)` TRUNCATIONS (not roundings) of `iw*zoom` and `ih*zoom`,
for every window size, image size, zoom and pan. -/
theorem c1_free_rect_amended (ww wh iw ih : Int) (zoom : ℚ) (px py : Int) :
    (render_image_free_rect ww wh iw ih zoom px py = none ↔
      (iw : ℚ) * zoom < 1 ∨ 65537 ≤ (iw : ℚ) * zoom ∨
      (ih : ℚ) * zoom < 1 ∨ 65537 ≤ (ih : ℚ) * zoom)
    ∧ ∀ r, render_image_free_rect ww wh iw ih zoom px py = some r →
        r.w = ratTrunc ((iw : ℚ) * zoom) ∧ r.h = ratTrunc ((ih : ℚ) * zoom) := by
  have hc : (ratTrunc ((iw : ℚ) * zoom) ≤ 0 ∨ ratTrunc ((ih : ℚ) * zoom) ≤ 0 ∨
      65536 < ratTrunc ((iw : ℚ) * zoom) ∨ 65536 < ratTrunc ((ih : ℚ) * zoom)) ↔
      ((iw : ℚ) * zoom < 1 ∨ 65537 ≤ (iw : ℚ) * zoom ∨
       (ih : ℚ) * zoom < 1 ∨ 65537 ≤ (ih : ℚ) * zoom) := by
    rw [ratTrunc_nonpos_iff, ratTrunc_nonpos_iff,
      ratTrunc_gt_65536_iff, ratTrunc_gt_65536_iff]
    tauto
  constructor
  · unfold render_image_free_rect
    split_ifs with h
    · simp only [true_iff]
      exact hc.mp h
    · constructor
      · intro habs
        cases habs
      · intro hd
        exact (h (hc.mpr hd)).elim
  · intro r hr
    unfold render_image_free_rect at hr
    split_ifs at hr with h
    cases hr
    exact ⟨rfl, rfl⟩

/-- C1 (witness): a 100x50 image at zoom 2 in an 800x600 window renders as
the 200x100 rectangle at (303, 254), whose sides are the truncated
products. -/
theorem c1_free_rect_amended_witness :
    ∃ r, render_image_free_rect 800 600 100 50 2 3 4 = some r ∧
      r.w = ratTrunc (((100 : Int) : ℚ) * 2) ∧ r.h = ratTrunc (((50 : Int) : ℚ) * 2) := by
  have h1 : ratTrunc (((100 : Int) : ℚ) * 2) = 200 := by
    rw [ratTrunc, if_pos (by norm_num)]
    norm_num [Int.floor_eq_iff]
  have h2 : ratTrunc (((50 : Int) : ℚ) * 2) = 100 := by
    rw [ratTrunc, if_pos (by norm_num)]
    norm_num [Int.floor_eq_iff]
  have hsome : render_image_free_rect 800 600 100 50 2 3 4 =
      some ⟨303, 254, 200, 100⟩ := by
    unfold render_image_free_rect
    rw [h1, h2, if_neg (by decide)]
    decide
  exact ⟨⟨303, 254, 200, 100⟩, hsome,
    (c1_free_rect_amended 800 600 100 50 2 3 4).2 ⟨303, 254, 200, 100⟩ hsome⟩
